import Mathlib

/-!
Verification of the Reblend declarative-UI runtime contract
(repository `scyberLink/reactex`, type surface `src/type/index.d.ts`).

The repository ships only the public type declarations; the runtime
engine (reconciler, hook store, context propagator, effect scheduler)
is specified in `spec.md`.  Definitions below are therefore of two
kinds: direct translations of the declaration file (function
signatures, the shapes of `RefObject` / `MutableRefObject`,
`EffectCallback` / `Destructor`), and executable models of the runtime
components, each marked `Modelled from the spec:` and naming the
missing implementation part it stands for.
-/

set_option autoImplicit false

namespace Reblend

/-- A small universe of JavaScript values.  Identity (`Object.is`) of
functions and objects is modelled by a numeric allocation id; numbers
and strings compare by value. -/
inductive JSVal where
  | undef
  | nullV
  | boolV (b : Bool)
  | num (n : Int)
  | str (s : String)
  | fn (fid : Nat)
  | obj (oid : Nat) (exoticMarker : Bool)
  deriving DecidableEq, Repr

/-- The SameValue comparison (`Object.is`): value equality for
primitives, identity for functions and objects. -/
def objectIs (a b : JSVal) : Bool :=
  decide (a = b)

/-! ### Hook Store

Modelled from the spec: the Hook Store component (spec 3, 4.3) is not
present in `src/`; only the hook signatures are declared.  Each
function-component Instance owns an ordered slot list; a render reads
the slots cursor-style, one hook call per slot, and a mismatch in
count or slot type is the fatal `HookOrderViolation`. -/

/-- The tag of a hook slot: hook identity is call position plus slot
kind (spec 3, Hook Slot). -/
inductive HookType where
  | stateH
  | refH
  | memoH
  | effectH
  | contextH
  deriving DecidableEq, Repr

/-- Modelled from the spec: one hook slot of an Instance (spec 3,
Hook Slot tagged union, restricted to the kinds the claims need). -/
inductive HookSlot where
  | stateSlot (value : JSVal)
  | refSlot (cell : Nat)
  | memoSlot (deps : List JSVal) (value : JSVal)
  | effectSlot (deps : Option (List JSVal))
  | contextSlot (ctx : Nat)
  deriving DecidableEq, Repr

def slotType : HookSlot → HookType
  | .stateSlot _ => .stateH
  | .refSlot _ => .refH
  | .memoSlot _ _ => .memoH
  | .effectSlot _ => .effectH
  | .contextSlot _ => .contextH

/-- One hook invocation performed by a render of the component body. -/
inductive HookCall where
  | callState (init : JSVal)
  | callRef (init : JSVal)
  | callMemo (deps : List JSVal) (value : JSVal)
  | callEffect (deps : Option (List JSVal))
  | callContext (ctx : Nat)
  deriving DecidableEq, Repr

def callType : HookCall → HookType
  | .callState _ => .stateH
  | .callRef _ => .refH
  | .callMemo _ _ => .memoH
  | .callEffect _ => .effectH
  | .callContext _ => .contextH

/-- Errors raised by the hook store (spec 7 taxonomy, hook part). -/
inductive HookError where
  | hookOrderViolation
  deriving DecidableEq, Repr

/-- Elementwise identity comparison of two dependency lists
(spec 4.3: recompute only when the list differs elementwise). -/
def depsEqual (a b : List JSVal) : Bool :=
  decide (a = b)

/-- Modelled from the spec: how a re-render updates one existing slot
from the matching hook call (spec 4.3).  `none` signals a slot/call
kind mismatch.  `useState` keeps the stored value, `useRef` keeps the
stored cell untouched, `useMemo` recomputes only on a changed
dependency list, effects re-record their dependency list, context
reads re-record the context. -/
def updSlot : HookSlot → HookCall → Option HookSlot
  | .stateSlot v, .callState _ => some (.stateSlot v)
  | .refSlot cell, .callRef _ => some (.refSlot cell)
  | .memoSlot deps v, .callMemo newDeps newVal =>
      some (.memoSlot (if depsEqual deps newDeps then deps else newDeps)
                      (if depsEqual deps newDeps then v else newVal))
  | .effectSlot _, .callEffect d => some (.effectSlot d)
  | .contextSlot _, .callContext c => some (.contextSlot c)
  | _, _ => none

/-- Modelled from the spec: the slot created for a hook call on the
first render of an Instance; `idx` is the call position, used as the
fresh allocation id of a `useRef` cell (spec 4.3). -/
def initSlot (idx : Nat) : HookCall → HookSlot
  | .callState init => .stateSlot init
  | .callRef _ => .refSlot idx
  | .callMemo deps v => .memoSlot deps v
  | .callEffect d => .effectSlot d
  | .callContext c => .contextSlot c

/-- Modelled from the spec: the slot list built by the first render of
an Instance (spec 4.3, cursor starts at 0 and advances per call). -/
def firstRender (calls : List HookCall) : List HookSlot :=
  calls.enum.map (fun p => initSlot p.1 p.2)

/-- Modelled from the spec: a re-render of an Instance walks the
existing slot list cursor-style against the hook calls of this render;
running past the end, stopping short, or hitting a slot of a different
kind raises `HookOrderViolation` on this very render (spec 4.3, 7). -/
def rerenderHooks : List HookSlot → List HookCall → Except HookError (List HookSlot)
  | [], [] => .ok []
  | [], _ :: _ => .error .hookOrderViolation
  | _ :: _, [] => .error .hookOrderViolation
  | s :: ss, c :: cs =>
      match updSlot s c with
      | none => .error .hookOrderViolation
      | some s2 =>
          match rerenderHooks ss cs with
          | .error e => .error e
          | .ok rest => .ok (s2 :: rest)

/-- Modelled from the spec: a sequence of re-renders of the same
Instance, threading the slot list; the first failing render aborts. -/
def runRenders (slots : List HookSlot) : List (List HookCall) → Except HookError (List HookSlot)
  | [] => .ok slots
  | calls :: rest =>
      match rerenderHooks slots calls with
      | .error e => .error e
      | .ok s2 => runRenders s2 rest

/-- Failure taxonomy of a render (spec 7). -/
inductive RenderFailure where
  | hookOrderViolationF
  | renderErrorF (fid : Nat)
  deriving DecidableEq, Repr

/-- Modelled from the spec: `HookOrderViolation` is fatal and
non-recoverable; a `RenderError` is recoverable by a boundary
(spec 4.3, 7). -/
def fatalFailure : RenderFailure → Bool
  | .hookOrderViolationF => true
  | .renderErrorF _ => false

/-- Outcome of failure propagation through the Instance chain. -/
inductive FailureOutcome where
  | recovered
  | surfaced (f : RenderFailure)
  deriving DecidableEq, Repr

/-- Modelled from the spec: propagation of a render failure; an
ancestor error boundary absorbs recoverable failures only, a fatal
failure is surfaced immediately regardless of boundaries (spec 7). -/
def handleFailure (hasBoundary : Bool) (f : RenderFailure) : FailureOutcome :=
  if hasBoundary && !fatalFailure f then .recovered else .surfaced f

/-! ### Context Propagator

Modelled from the spec: the Context Propagator (spec 3, 4.5) is not
present in `src/`; `src/type/index.d.ts` only declares
`createContext(defaultValue) : Context<T>` (lines 805-809) and
`useContext(context) : T` (lines 1972-1974).  A Context is a default
value plus a current-value stack; a Provider pushes for the render of
its subtree and pops afterward; `useContext` reads the top of the
stack, falling back to the default on an empty stack. -/

/-- An element tree as far as context propagation is concerned:
Provider nodes, context-reading consumers, passthrough host nodes and
sibling sequencing.  Contexts are named by the id of the object
`createContext` returned. -/
inductive CTree where
  | leaf
  | seqT (a b : CTree)
  | hostT (child : CTree)
  | provider (ctx : Nat) (value : JSVal) (child : CTree)
  | consumer (ctx : Nat)
  deriving DecidableEq, Repr

/-- Per-context current-value stacks, one stack per context id
(spec 3: Context is a defaultValue plus a currentValueStack). -/
abbrev CtxStacks : Type := Nat → List JSVal

/-- The empty stacks at the root of a render pass. -/
def noStacks : CtxStacks := fun _ => []

/-- Modelled from the spec: a Provider pushes its value onto the stack
of its own context for the duration of its subtree render (spec 3). -/
def pushCtx (st : CtxStacks) (c : Nat) (v : JSVal) : CtxStacks :=
  fun c2 => if c2 = c then v :: st c2 else st c2

/-- Modelled from the spec: `useContext` (and a Consumer) reads the
top of the current-value stack of its context, or the default value
when the stack is empty (spec 3, 4.5; `createContext` docs: the
default is the value when there is no matching Provider above). -/
def readContext (defaults : Nat → JSVal) (st : CtxStacks) (c : Nat) : JSVal :=
  match st c with
  | [] => defaults c
  | v :: _ => v

/-- Modelled from the spec: one render pass over the tree, collecting
in document order every context read together with the value it
observed.  Entering a Provider pushes; the pop on leaving its subtree
is the return to the enclosing `st` (stack discipline, spec 4.5). -/
def renderReads (defaults : Nat → JSVal) (st : CtxStacks) : CTree → List (Nat × JSVal)
  | .leaf => []
  | .seqT a b => renderReads defaults st a ++ renderReads defaults st b
  | .hostT t => renderReads defaults st t
  | .provider c v t => renderReads defaults (pushCtx st c v) t
  | .consumer c => [(c, readContext defaults st c)]

/-- The chain of Provider ancestors of a node, innermost first, as
(context id, provided value) pairs. -/
abbrev AncChain : Type := List (Nat × JSVal)

/-- The value of the nearest enclosing Provider of context `c` in an
ancestor chain, or the default of `c` when none exists.  This is the
claimed observable behaviour, stated without any stack. -/
def nearestProviderValue (defaults : Nat → JSVal) (anc : AncChain) (c : Nat) : JSVal :=
  match anc with
  | [] => defaults c
  | (c2, v) :: rest => if c2 = c then v else nearestProviderValue defaults rest c

/-- Every context read of the tree paired with the value the nearest
enclosing Provider dictates, computed from ancestor chains only. -/
def specReads (defaults : Nat → JSVal) (anc : AncChain) : CTree → List (Nat × JSVal)
  | .leaf => []
  | .seqT a b => specReads defaults anc a ++ specReads defaults anc b
  | .hostT t => specReads defaults anc t
  | .provider c v t => specReads defaults ((c, v) :: anc) t
  | .consumer c => [(c, nearestProviderValue defaults anc c)]

/-- The per-context stack an ancestor chain induces. -/
def stacksOf (anc : AncChain) : CtxStacks :=
  fun c => (anc.filter (fun p => p.1 = c)).map (fun p => p.2)

/-! ### Element Builder

Modelled from the spec: the runtime bodies of `createElement` and
`cloneElement` are not in `src/`; `src/type/index.d.ts` declares their
overloads (lines 540-587 and 616-630).  Spec 4.1 gives the contract:
`createElement` accepts a string tag, a function, or an object
carrying the internal exotic-component marker (the `$$typeof` symbol
of `ExoticComponent`, line 665) and signals `InvalidElementType`
otherwise; `cloneElement` shallow-merges props, dropping `undefined`
override values, replaces children only when given, and preserves
`key`/`ref` unless overridden. -/

/-- Props are an ordered association of prop names to values. -/
abbrev Props : Type := List (String × JSVal)

/-- First value bound to prop name `k`, as JavaScript object access. -/
def lookupProp : Props → String → Option JSVal
  | [], _ => none
  | p :: ps, k => if p.1 = k then some p.2 else lookupProp ps k

/-- An element descriptor (spec 3: type, props, key, ref, children;
immutable once created). -/
structure Element where
  etype : JSVal
  props : Props
  key : Option JSVal
  ref : Option JSVal
  children : List JSVal
  deriving DecidableEq, Repr

/-- Error taxonomy of the Element Builder (spec 7). -/
inductive ElementError where
  | invalidElementType
  deriving DecidableEq, Repr

/-- Modelled from the spec: the runtime validity test on the `type`
argument of `createElement` (spec 4.1): a string tag, a function, or
an object carrying the exotic-component marker. -/
def isValidElementType : JSVal → Bool
  | .str _ => true
  | .fn _ => true
  | .obj _ exoticMarker => exoticMarker
  | _ => false

/-- Modelled from the spec: `createElement(type, props, ...children)`
builds a fresh Element after validating `type`, extracting `key` and
`ref` from the props argument, and signals `InvalidElementType` on any
other `type` (spec 4.1, 7). -/
def createElement (t : JSVal) (props : Props) (children : List JSVal) :
    Except ElementError Element :=
  if isValidElementType t then
    .ok { etype := t
          props := props.filter (fun p => p.1 ≠ "key" && p.1 ≠ "ref")
          key := lookupProp props "key"
          ref := lookupProp props "ref"
          children := children }
  else
    .error .invalidElementType

/-- Modelled from the spec: shallow merge of original props with
override props.  An override value wins except that an `undefined`
override value is dropped and the original value kept; override-only
names are appended unless their value is `undefined` (spec 4.1). -/
def mergeProps (orig over : Props) : Props :=
  orig.map (fun p =>
    match lookupProp over p.1 with
    | some v => if v = JSVal.undef then p else (p.1, v)
    | none => p) ++
  over.filter (fun q => (lookupProp orig q.1).isNone && decide (q.2 ≠ JSVal.undef))

/-- Modelled from the spec: `cloneElement(element, overrideProps,
...children)` returns a new Element with the same type, shallow-merged
props, children replaced only when new ones are given, and the
original key and ref unless explicitly overridden (spec 4.1).  `none`
for `newKey`, `newRef` or `newChildren` means the caller did not
supply that override. -/
def cloneElement (e : Element) (overrides : Props)
    (newKey newRef : Option JSVal) (newChildren : Option (List JSVal)) : Element :=
  { etype := e.etype
    props := mergeProps e.props overrides
    key := match newKey with
           | some k => some k
           | none => e.key
    ref := match newRef with
           | some r => some r
           | none => e.ref
    children := match newChildren with
                | some cs => cs
                | none => e.children }

/-! ### Class lifecycle scheduling

Modelled from the spec: the class-component update scheduler is not in
`src/`; `src/type/index.d.ts` documents it on `ComponentLifecycle`
(lines 1411-1416) and on every member of `DeprecatedLifecycle`
(lines 1497-1601): the presence of `getSnapshotBeforeUpdate` or of
`getDerivedStateFromProps` prevents the deprecated methods from being
invoked.  Spec 4.2 item 4 fixes the order on update. -/

/-- The lifecycle methods an update pass can invoke. -/
inductive LMethod where
  | getDerivedStateFromPropsM
  | componentWillReceivePropsM
  | componentWillUpdateM
  | shouldComponentUpdateM
  | renderM
  | getSnapshotBeforeUpdateM
  | componentDidUpdateM
  deriving DecidableEq, Repr

/-- The lifecycle-capability record of a class component (spec 9,
design note: a tagged capability record resolved at mount).
`scuResult` is the value `shouldComponentUpdate` returns when run. -/
structure ClassSpec where
  hasGetDerivedStateFromProps : Bool
  hasGetSnapshotBeforeUpdate : Bool
  hasComponentWillReceiveProps : Bool
  hasComponentWillUpdate : Bool
  hasShouldComponentUpdate : Bool
  scuResult : Bool
  hasComponentDidUpdate : Bool
  deriving DecidableEq, Repr

/-- Whether either of the two new-style lifecycle methods is present;
their presence suppresses the deprecated pair (d.ts docs, spec 4.2). -/
def newLifecyclePresent (s : ClassSpec) : Bool :=
  s.hasGetDerivedStateFromProps || s.hasGetSnapshotBeforeUpdate

/-- Modelled from the spec: the ordered sequence of lifecycle methods
one update of a class Instance invokes (spec 4.2 item 4):
`componentWillReceiveProps` (deprecated, only without new-style
methods), `getDerivedStateFromProps`, `shouldComponentUpdate` — and,
unless the latter returned false, `componentWillUpdate` (deprecated,
same suppression), `render`, `getSnapshotBeforeUpdate`, commit, then
`componentDidUpdate`. -/
def updateSequence (s : ClassSpec) : List LMethod :=
  (if s.hasComponentWillReceiveProps && !newLifecyclePresent s
     then [LMethod.componentWillReceivePropsM] else []) ++
  (if s.hasGetDerivedStateFromProps
     then [LMethod.getDerivedStateFromPropsM] else []) ++
  (if s.hasShouldComponentUpdate
     then [LMethod.shouldComponentUpdateM] else []) ++
  (if s.hasShouldComponentUpdate && !s.scuResult then []
   else
     (if s.hasComponentWillUpdate && !newLifecyclePresent s
        then [LMethod.componentWillUpdateM] else []) ++
     [LMethod.renderM] ++
     (if s.hasGetSnapshotBeforeUpdate
        then [LMethod.getSnapshotBeforeUpdateM] else []) ++
     (if s.hasComponentDidUpdate
        then [LMethod.componentDidUpdateM] else []))

/-! ### memo

Modelled from the spec: the runtime of `memo(Component, propsAreEqual?)`
(declared at `src/type/index.d.ts` lines 1858-1868) is not in `src/`.
Spec 4.2 item 3 and spec 8: with the default comparator the wrapped
render is skipped when the previous and next props are equal entry by
entry under `Object.is`; the props argument is a JavaScript object
with its own identity, distinct on every render. -/

/-- A props object: an allocation id (JavaScript object identity) plus
its own enumerable entries. -/
structure PropsObj where
  poid : Nat
  entries : Props
  deriving DecidableEq, Repr

/-- Identity (`Object.is`) of two props objects. -/
def propsObjectIs (a b : PropsObj) : Bool :=
  a.poid == b.poid

/-- Modelled from the spec: the default comparator of `memo` — shallow
equality, comparing the two props objects entry by entry with
`Object.is`, never by object identity (spec 4.2 item 3, spec 8). -/
def shallowEqualProps (a b : PropsObj) : Bool :=
  (a.entries.length == b.entries.length) &&
  a.entries.all (fun p =>
    match lookupProp b.entries p.1 with
    | some v => objectIs p.2 v
    | none => false)

/-- Modelled from the spec: renders executed by a memo-wrapped
component after its first render, given the comparator and the
committed props of the previous render: a render is skipped exactly
when the comparator holds (spec 4.2 item 3). -/
def memoGo (cmp : PropsObj → PropsObj → Bool) : PropsObj → List PropsObj → Nat
  | _, [] => 0
  | prev, q :: rest => (if cmp prev q then 0 else 1) + memoGo cmp q rest

/-- Modelled from the spec: how many times the wrapped render function
of `memo(Comp, cmp)` runs over a sequence of prop objects, one per
reconciliation of the wrapper; the first render always runs. -/
def memoRenderCount (cmp : PropsObj → PropsObj → Bool) : List PropsObj → Nat
  | [] => 0
  | p :: rest => 1 + memoGo cmp p rest

/-! ### Declared signatures

Direct translations of parameter lists of hook declarations in
`src/type/index.d.ts`.  A parameter is `optional` exactly when the
declaration marks it with `?`. -/

/-- One declared parameter: its name and whether it is optional. -/
structure ParamSig where
  pname : String
  optional : Bool
  deriving DecidableEq, Repr

/-- `useCallback<T extends Function>(callback: T, deps: DependencyList): T`
(`src/type/index.d.ts` lines 2176-2179): both parameters required. -/
def useCallback_params : List ParamSig :=
  [{ pname := "callback", optional := false },
   { pname := "deps", optional := false }]

/-- `useMemo<T>(factory: () => T, deps: DependencyList): T`
(`src/type/index.d.ts` line 2187): both parameters required. -/
def useMemo_params : List ParamSig :=
  [{ pname := "factory", optional := false },
   { pname := "deps", optional := false }]

/-- `useEffect(effect: EffectCallback, deps?: DependencyList): void`
(`src/type/index.d.ts` lines 2138-2148): `deps` is optional. -/
def useEffect_params : List ParamSig :=
  [{ pname := "effect", optional := false },
   { pname := "deps", optional := true }]

/-- Whether the declared parameter list admits a call supplying its
first `n` arguments: every required parameter must be supplied and no
extra argument is accepted (TypeScript call checking on a declaration
whose optional parameters all come last). -/
def admitsArgCount (ps : List ParamSig) (n : Nat) : Bool :=
  ((ps.filter (fun p => !p.optional)).length ≤ n) && (n ≤ ps.length)

/-! ### Ref object shapes

Direct translations of the ref container types in
`src/type/index.d.ts`: `RefObject<T>` (lines 154-159) has
`readonly current: T | null`; `MutableRefObject<T>` (lines 1960-1962)
has a plain `current: T` field; `createRef<T>(): RefObject<T>`
(line 1636); the three `useRef` overloads (lines 2096-2124). -/

/-- The shape of a ref container type at the public interface:
whether application code may assign to its `current` field. -/
structure RefShape where
  currentWritableByApp : Bool
  deriving DecidableEq, Repr

/-- `RefObject<T>`: `readonly current` — not writable by application
code (`src/type/index.d.ts` lines 154-159). -/
def RefObject_shape : RefShape := { currentWritableByApp := false }

/-- `MutableRefObject<T>`: mutable `current: T`
(`src/type/index.d.ts` lines 1960-1962). -/
def MutableRefObject_shape : RefShape := { currentWritableByApp := true }

/-- `createRef<T>(): RefObject<T>` (`src/type/index.d.ts` line 1636). -/
def createRef_returnShape : RefShape := RefObject_shape

/-- The three declared overloads of `useRef`
(`src/type/index.d.ts` lines 2096-2124). -/
inductive UseRefOverload where
  | withInit
  | withNullableInit
  | noArg
  deriving DecidableEq, Repr

/-- Return type of each `useRef` overload:
`useRef<T>(initialValue: T): MutableRefObject<T>`;
`useRef<T>(initialValue: T | null): RefObject<T>`;
`useRef<T = undefined>(): MutableRefObject<T | undefined>`
(`src/type/index.d.ts` lines 2096-2124). -/
def useRef_returnShape : UseRefOverload → RefShape
  | .withInit => MutableRefObject_shape
  | .withNullableInit => RefObject_shape
  | .noArg => MutableRefObject_shape

/-! ### Effect callback returns

Direct translation of `type Destructor = () => void | { ... : never }`
and `type VoidOrUndefinedOnly` (`src/type/index.d.ts` lines 35-44) and
`type EffectCallback = () => void | Destructor` (line 1958): the value
an effect callback returns is `undefined` or a cleanup function; the
`UNDEFINED_VOID_ONLY` phantom member makes every other member of the
unions uninhabited. -/

/-- The run-time value returned by a candidate effect callback. -/
inductive EffectReturn where
  | undefR
  | destructorR (cleanupId : Nat)
  | promiseR (pid : Nat)
  | valueR (v : JSVal)
  deriving DecidableEq, Repr

/-- Whether a return value inhabits `void | Destructor`, the declared
return type of `EffectCallback` (`src/type/index.d.ts` line 1958):
only `undefined` and cleanup functions do. -/
def effectCallbackAdmits : EffectReturn → Bool
  | .undefR => true
  | .destructorR _ => true
  | .promiseR _ => false
  | .valueR _ => false

/-- The three effect hooks that accept an `EffectCallback`. -/
inductive EffectHook where
  | useEffectH
  | useLayoutEffectH
  | useInsertionEffectH
  deriving DecidableEq, Repr

/-- Each of `useEffect` (lines 2138-2148), `useLayoutEffect`
(lines 2128-2139) and `useInsertionEffect` (lines 2276-2279) declares
its `effect` parameter with type `EffectCallback`, so all three accept
exactly the returns `EffectCallback` admits. -/
def effectHookAdmits (_hook : EffectHook) (r : EffectReturn) : Bool :=
  effectCallbackAdmits r

/-- The cleanup obtained from an admitted effect return: absent for
`undefined`, the destructor itself otherwise. -/
def scheduledCleanup : EffectReturn → Option Nat
  | .destructorR i => some i
  | _ => none

/-! ## Helper lemmas: hook store -/

theorem updSlot_type (s : HookSlot) (c : HookCall) (s2 : HookSlot)
    (h : updSlot s c = some s2) :
    slotType s2 = slotType s ∧ callType c = slotType s := by
  cases s <;> cases c <;> simp [updSlot] at h <;> subst h <;>
    simp [slotType, callType]

theorem updSlot_total (s : HookSlot) (c : HookCall)
    (h : callType c = slotType s) : ∃ s2, updSlot s c = some s2 := by
  cases s <;> cases c <;> simp [slotType, callType] at h <;>
    exact ⟨_, rfl⟩

theorem rerenderHooks_ok_types :
    ∀ (slots : List HookSlot) (calls : List HookCall) (slots2 : List HookSlot),
      rerenderHooks slots calls = .ok slots2 →
      slots2.map slotType = slots.map slotType ∧
        calls.map callType = slots.map slotType := by
  intro slots
  induction slots with
  | nil =>
      intro calls slots2 h
      cases calls with
      | nil =>
          simp [rerenderHooks] at h
          subst h; simp
      | cons c cs => simp [rerenderHooks] at h
  | cons s ss ih =>
      intro calls slots2 h
      cases calls with
      | nil => simp [rerenderHooks] at h
      | cons c cs =>
          simp only [rerenderHooks] at h
          cases hu : updSlot s c with
          | none => rw [hu] at h; simp at h
          | some s2 =>
              rw [hu] at h
              cases hr : rerenderHooks ss cs with
              | error e => rw [hr] at h; simp at h
              | ok rest =>
                  rw [hr] at h
                  simp at h
                  subst h
                  obtain ⟨ht, hc⟩ := updSlot_type s c s2 hu
                  obtain ⟨ih1, ih2⟩ := ih cs rest hr
                  simp [List.map, ht, hc, ih1, ih2]

theorem rerenderHooks_ok_of_types :
    ∀ (slots : List HookSlot) (calls : List HookCall),
      calls.map callType = slots.map slotType →
      ∃ slots2, rerenderHooks slots calls = .ok slots2 := by
  intro slots
  induction slots with
  | nil =>
      intro calls h
      cases calls with
      | nil => exact ⟨[], rfl⟩
      | cons c cs => simp at h
  | cons s ss ih =>
      intro calls h
      cases calls with
      | nil => simp at h
      | cons c cs =>
          simp [List.map] at h
          obtain ⟨hc, hcs⟩ := h
          obtain ⟨s2, hu⟩ := updSlot_total s c hc
          obtain ⟨rest, hr⟩ := ih cs hcs
          exact ⟨s2 :: rest, by simp [rerenderHooks, hu, hr]⟩

theorem hookError_eq (e : HookError) : e = .hookOrderViolation := by
  cases e; rfl

theorem rerenderHooks_refSlot_preserved :
    ∀ (slots : List HookSlot) (calls : List HookCall) (slots2 : List HookSlot),
      rerenderHooks slots calls = .ok slots2 →
      ∀ (i n : Nat), slots[i]? = some (.refSlot n) → slots2[i]? = some (.refSlot n) := by
  intro slots
  induction slots with
  | nil =>
      intro calls slots2 h i n hi
      simp at hi
  | cons s ss ih =>
      intro calls slots2 h i n hi
      cases calls with
      | nil => simp [rerenderHooks] at h
      | cons c cs =>
          simp only [rerenderHooks] at h
          cases hu : updSlot s c with
          | none => rw [hu] at h; simp at h
          | some s2 =>
              rw [hu] at h
              cases hr : rerenderHooks ss cs with
              | error e => rw [hr] at h; simp at h
              | ok rest =>
                  rw [hr] at h
                  simp at h
                  subst h
                  cases i with
                  | zero =>
                      simp at hi
                      subst hi
                      cases c <;> simp [updSlot] at hu
                      subst hu
                      simp
                  | succ j =>
                      simp at hi
                      simpa using ih cs rest hr j n hi

theorem runRenders_refSlot_preserved :
    ∀ (renders : List (List HookCall)) (slots final : List HookSlot),
      runRenders slots renders = .ok final →
      ∀ (i n : Nat), slots[i]? = some (.refSlot n) → final[i]? = some (.refSlot n) := by
  intro renders
  induction renders with
  | nil =>
      intro slots final h i n hi
      simp [runRenders] at h
      subst h; exact hi
  | cons calls rest ih =>
      intro slots final h i n hi
      simp only [runRenders] at h
      cases hr : rerenderHooks slots calls with
      | error e => rw [hr] at h; simp at h
      | ok s2 =>
          rw [hr] at h
          exact ih s2 final h i n
            (rerenderHooks_refSlot_preserved slots calls s2 hr i n hi)

/-! ## Helper lemmas: context propagator -/

theorem noStacks_eq_stacksOf : noStacks = stacksOf [] := by
  funext c
  rfl

theorem pushCtx_stacksOf (anc : AncChain) (c : Nat) (v : JSVal) :
    pushCtx (stacksOf anc) c v = stacksOf ((c, v) :: anc) := by
  funext c2
  by_cases h : c2 = c
  · subst h
    simp [pushCtx, stacksOf]
  · have h2 : ¬ c = c2 := fun hx => h hx.symm
    simp [pushCtx, stacksOf, h, List.filter, h2]

theorem readContext_stacksOf (defaults : Nat → JSVal) (anc : AncChain) (c : Nat) :
    readContext defaults (stacksOf anc) c = nearestProviderValue defaults anc c := by
  induction anc with
  | nil => rfl
  | cons p rest ih =>
      obtain ⟨c2, v⟩ := p
      by_cases h : c2 = c
      · subst h
        simp [stacksOf, readContext, nearestProviderValue]
      · simp only [nearestProviderValue, if_neg h]
        rw [← ih]
        simp [stacksOf, readContext, h]

theorem renderReads_eq_specReads (defaults : Nat → JSVal) :
    ∀ (t : CTree) (anc : AncChain),
      renderReads defaults (stacksOf anc) t = specReads defaults anc t := by
  intro t
  induction t with
  | leaf => intro anc; rfl
  | seqT a b iha ihb =>
      intro anc
      simp [renderReads, specReads, iha anc, ihb anc]
  | hostT t iht =>
      intro anc
      simp [renderReads, specReads, iht anc]
  | provider c v t iht =>
      intro anc
      simp [renderReads, specReads, pushCtx_stacksOf, iht ((c, v) :: anc)]
  | consumer c =>
      intro anc
      simp [renderReads, specReads, readContext_stacksOf]

/-! ## Helper lemmas: props and shallow equality -/

theorem lookupProp_mem_of_nodup :
    ∀ (l : Props), (l.map Prod.fst).Nodup →
      ∀ p ∈ l, lookupProp l p.1 = some p.2 := by
  intro l
  induction l with
  | nil =>
      intro _ p hp
      simp at hp
  | cons q rest ih =>
      intro hnd p hp
      have hq : q.1 ∉ rest.map Prod.fst := by
        intro hmem
        exact (List.nodup_cons.mp (by simpa using hnd)).1 hmem
      have hrest : (rest.map Prod.fst).Nodup :=
        (List.nodup_cons.mp (by simpa using hnd)).2
      rcases List.mem_cons.mp hp with hp2 | hp2
      · subst hp2
        simp [lookupProp]
      · have hne : ¬ q.1 = p.1 := by
          intro he
          exact hq (he ▸ List.mem_map_of_mem Prod.fst hp2)
        simp [lookupProp, hne]
        exact ih hrest p hp2

theorem shallowEqualProps_same_entries (a b : PropsObj)
    (he : a.entries = b.entries) (hnd : (a.entries.map Prod.fst).Nodup) :
    shallowEqualProps a b = true := by
  unfold shallowEqualProps
  rw [← he]
  simp only [beq_self_eq_true, Bool.true_and, List.all_eq_true]
  intro p hp
  rw [lookupProp_mem_of_nodup a.entries hnd p hp]
  simp [objectIs]

/-! ## Helper lemmas: element builder -/

theorem lookupProp_append (a b : Props) (k : String) :
    lookupProp (a ++ b) k =
      match lookupProp a k with
      | some v => some v
      | none => lookupProp b k := by
  induction a with
  | nil => rfl
  | cons p ps ih =>
      by_cases h : p.1 = k
      · simp [lookupProp, h]
      · simp [lookupProp, h, ih]

theorem lookupProp_merge_left (orig over : Props) (k : String) :
    lookupProp (orig.map (fun p =>
        match lookupProp over p.1 with
        | some v => if v = JSVal.undef then p else (p.1, v)
        | none => p)) k =
      match lookupProp orig k with
      | none => none
      | some w =>
          match lookupProp over k with
          | some v => if v = JSVal.undef then some w else some v
          | none => some w := by
  induction orig with
  | nil => rfl
  | cons p ps ih =>
      by_cases h : p.1 = k
      · subst h
        cases ho : lookupProp over p.1 with
        | none => simp [lookupProp, ho]
        | some v =>
            by_cases hv : v = JSVal.undef
            · simp [lookupProp, ho, hv]
            · simp [lookupProp, ho, hv]
      · cases ho : lookupProp over p.1 with
        | none => simp [lookupProp, ho, h, ih]
        | some v =>
            by_cases hv : v = JSVal.undef
            · simp [lookupProp, ho, hv, h, ih]
            · simp [lookupProp, ho, hv, h, ih]

theorem lookupProp_filter_none (l : Props) (f : String × JSVal → Bool) (k : String)
    (h : lookupProp l k = none) : lookupProp (l.filter f) k = none := by
  induction l with
  | nil => rfl
  | cons p ps ih =>
      by_cases hk : p.1 = k
      · simp [lookupProp, hk] at h
      · simp only [lookupProp, if_neg hk] at h
        rw [List.filter_cons]
        cases hf : f p with
        | false => simpa using ih h
        | true => simp [lookupProp, hk, ih h]

theorem lookupProp_eq_none_of_not_mem (l : Props) (k : String)
    (h : k ∉ l.map Prod.fst) : lookupProp l k = none := by
  induction l with
  | nil => rfl
  | cons p ps ih =>
      simp only [List.map_cons, List.mem_cons, not_or] at h
      have hk : ¬ p.1 = k := fun he => h.1 he.symm
      simp [lookupProp, hk, ih h.2]

theorem lookupProp_merge_right (orig over : Props) (k : String)
    (hnd : (over.map Prod.fst).Nodup) (h0 : lookupProp orig k = none) :
    lookupProp (over.filter
        (fun q => (lookupProp orig q.1).isNone && decide (q.2 ≠ JSVal.undef))) k =
      match lookupProp over k with
      | some v => if v = JSVal.undef then none else some v
      | none => none := by
  induction over with
  | nil => rfl
  | cons q qs ih =>
      have hq : q.1 ∉ qs.map Prod.fst :=
        (List.nodup_cons.mp (by simpa using hnd)).1
      have hqs : (qs.map Prod.fst).Nodup :=
        (List.nodup_cons.mp (by simpa using hnd)).2
      rw [List.filter_cons]
      by_cases hk : q.1 = k
      · subst hk
        by_cases hv : q.2 = JSVal.undef
        · have hdrop : ((lookupProp orig q.1).isNone &&
              decide (q.2 ≠ JSVal.undef)) = false := by
            simp [hv]
          have hnone : lookupProp qs q.1 = none :=
            lookupProp_eq_none_of_not_mem qs q.1 hq
          rw [hdrop]
          simp [lookupProp, hv, lookupProp_filter_none qs _ q.1 hnone]
        · have hkeep : ((lookupProp orig q.1).isNone &&
              decide (q.2 ≠ JSVal.undef)) = true := by
            simp [h0, hv]
          rw [hkeep]
          simp [lookupProp, hv]
      · cases hf : ((lookupProp orig q.1).isNone &&
            decide (q.2 ≠ JSVal.undef)) with
        | false =>
            rw [if_neg (by simp [hf])]
            simp only [lookupProp, if_neg hk]
            exact ih hqs
        | true =>
            rw [if_pos (by simp [hf])]
            simp only [lookupProp, if_neg hk]
            exact ih hqs

theorem lookupProp_mergeProps (orig over : Props) (k : String)
    (hnd : (over.map Prod.fst).Nodup) :
    lookupProp (mergeProps orig over) k =
      match lookupProp over k with
      | some v => if v = JSVal.undef then lookupProp orig k else some v
      | none => lookupProp orig k := by
  unfold mergeProps
  rw [lookupProp_append, lookupProp_merge_left]
  cases ho : lookupProp orig k with
  | some w =>
      cases hov : lookupProp over k with
      | none => rfl
      | some v =>
          by_cases hv : v = JSVal.undef
          · simp [hv, ho]
          · simp [hv]
  | none =>
      rw [lookupProp_merge_right orig over k hnd ho]

/-! ## Claim theorems -/

/-- C1: for every function-component Instance, a sequence of renders
whose hook calls all repeat the slot count and slot-type sequence of
the Instance succeeds and leaves that sequence unchanged; a render
whose number or order of hook calls differs from the slot list raises
`HookOrderViolation` on that very render; and this failure is fatal:
it is surfaced even in the presence of an error boundary, never
absorbed. -/
theorem hook_order_invariant :
    (∀ (slots : List HookSlot) (renders : List (List HookCall)),
        (∀ r ∈ renders, r.map callType = slots.map slotType) →
        ∃ final, runRenders slots renders = .ok final ∧
          final.map slotType = slots.map slotType) ∧
    (∀ (slots : List HookSlot) (calls : List HookCall),
        calls.map callType ≠ slots.map slotType →
        rerenderHooks slots calls = .error .hookOrderViolation) ∧
    (∀ hasBoundary : Bool,
        handleFailure hasBoundary .hookOrderViolationF =
          .surfaced .hookOrderViolationF) := by
  refine ⟨?_, ?_, ?_⟩
  · intro slots renders
    induction renders generalizing slots with
    | nil =>
        intro _
        exact ⟨slots, rfl, rfl⟩
    | cons calls rest ih =>
        intro hall
        obtain ⟨s2, hok⟩ := rerenderHooks_ok_of_types slots calls
          (hall calls (by simp))
        obtain ⟨hty, _⟩ := rerenderHooks_ok_types slots calls s2 hok
        obtain ⟨final, hrun, hfin⟩ := ih s2 (by
          intro r hr
          rw [hty]
          exact hall r (by simp [hr]))
        refine ⟨final, ?_, by rw [hfin, hty]⟩
        simp only [runRenders, hok]
        exact hrun
  · intro slots calls hne
    cases hr : rerenderHooks slots calls with
    | ok slots2 =>
        exact absurd (rerenderHooks_ok_types slots calls slots2 hr).2 hne
    | error e =>
        rw [← hookError_eq e]
  · intro b
    cases b <;> rfl

/-- Closed instantiation of `hook_order_invariant`: a matching render
of a one-state-slot Instance succeeds, and a render calling a ref hook
where a state hook was called before raises `HookOrderViolation`. -/
theorem hook_order_invariant_witness :
    (∃ final,
        runRenders [HookSlot.stateSlot (.num 0)] [[HookCall.callState (.num 1)]] =
          .ok final ∧
        final.map slotType = [HookSlot.stateSlot (.num 0)].map slotType) ∧
    rerenderHooks [HookSlot.stateSlot (.num 0)] [HookCall.callRef (.num 7)] =
      .error .hookOrderViolation ∧
    handleFailure true .hookOrderViolationF = .surfaced .hookOrderViolationF :=
  ⟨hook_order_invariant.1 [HookSlot.stateSlot (.num 0)]
      [[HookCall.callState (.num 1)]] (by decide),
   hook_order_invariant.2.1 [HookSlot.stateSlot (.num 0)]
      [HookCall.callRef (.num 7)] (by decide),
   hook_order_invariant.2.2 true⟩

/-- C6: the ref cell `useRef` installs at call position `i` on the
first render of an Instance is the cell found at position `i` after
every later successful render of that Instance: the Ref slot value is
created once and never replaced, so the object `useRef` returns is
reference-equal across all renders. -/
theorem useRef_slot_identity :
    ∀ (calls : List HookCall) (renders : List (List HookCall))
      (final : List HookSlot) (i : Nat) (x : JSVal),
      calls[i]? = some (.callRef x) →
      runRenders (firstRender calls) renders = .ok final →
      (firstRender calls)[i]? = some (.refSlot i) ∧
        final[i]? = some (.refSlot i) := by
  intro calls renders final i x hcall hrun
  have hfirst : (firstRender calls)[i]? = some (.refSlot i) := by
    simp only [firstRender, List.getElem?_map, List.getElem?_enum, hcall]
    simp [initSlot]
  exact ⟨hfirst,
    runRenders_refSlot_preserved renders (firstRender calls) final hrun i i hfirst⟩

/-- Closed instantiation of `useRef_slot_identity`: a component whose
body calls `useState` then `useRef`, re-rendered twice; the ref slot
keeps cell 1 throughout. -/
theorem useRef_slot_identity_witness :
    (firstRender [HookCall.callState (.num 0), HookCall.callRef (.nullV)])[1]? =
        some (HookSlot.refSlot 1) ∧
      [HookSlot.stateSlot (.num 0), HookSlot.refSlot 1][1]? =
        some (HookSlot.refSlot 1) :=
  useRef_slot_identity
    [HookCall.callState (.num 0), HookCall.callRef (.nullV)]
    [[HookCall.callState (.num 5), HookCall.callRef (.nullV)],
     [HookCall.callState (.num 6), HookCall.callRef (.nullV)]]
    [HookSlot.stateSlot (.num 0), HookSlot.refSlot 1] 1 .nullV
    (by decide) (by rfl)

/-- C2: during a render pass started with empty stacks, the value
every context read observes — via `useContext` or a Consumer — is the
value of the nearest enclosing Provider of that context, or the
defaultValue of `createContext` when no enclosing Provider exists; in
particular a consumer nested inside Provider A nested inside Provider
B of the same context observes the value of A, not of B. -/
theorem context_nearest_provider :
    (∀ (defaults : Nat → JSVal) (t : CTree),
        renderReads defaults noStacks t = specReads defaults [] t) ∧
    (∀ (defaults : Nat → JSVal) (c : Nat) (vA vB : JSVal),
        renderReads defaults noStacks
          (.provider c vB (.hostT (.provider c vA (.hostT (.consumer c))))) =
          [(c, vA)]) ∧
    (∀ (defaults : Nat → JSVal) (c : Nat),
        renderReads defaults noStacks (.consumer c) = [(c, defaults c)]) := by
  refine ⟨?_, ?_, ?_⟩
  · intro defaults t
    rw [noStacks_eq_stacksOf]
    exact renderReads_eq_specReads defaults t []
  · intro defaults c vA vB
    simp [renderReads, pushCtx, readContext, noStacks]
  · intro defaults c
    rfl

/-- C4: a class Instance that defines `getSnapshotBeforeUpdate` or the
static `getDerivedStateFromProps` never has the deprecated
`componentWillReceiveProps` or `componentWillUpdate` invoked on any of
its updates, whatever other capabilities it has and whatever
`shouldComponentUpdate` returns. -/
theorem deprecated_lifecycle_suppressed :
    ∀ (gd gs wrp wu scu scur cdu : Bool),
      (gd || gs) = true →
      LMethod.componentWillReceivePropsM ∉
          updateSequence ⟨gd, gs, wrp, wu, scu, scur, cdu⟩ ∧
        LMethod.componentWillUpdateM ∉
          updateSequence ⟨gd, gs, wrp, wu, scu, scur, cdu⟩ := by
  decide

/-- Closed instantiation of `deprecated_lifecycle_suppressed`: a class
defining `getDerivedStateFromProps` together with both deprecated
methods never runs the deprecated pair on an update. -/
theorem deprecated_lifecycle_suppressed_witness :
    LMethod.componentWillReceivePropsM ∉
        updateSequence ⟨true, false, true, true, true, true, true⟩ ∧
      LMethod.componentWillUpdateM ∉
        updateSequence ⟨true, false, true, true, true, true, true⟩ :=
  deprecated_lifecycle_suppressed true false true true true true true rfl

/-- C5: a memo-wrapped component reconciled twice with two distinct
props objects of identical shape under the default comparator runs its
wrapped render exactly once, both in general (any duplicate-free
entry list) and on the concrete scenario of `props = ⟨a:1⟩` supplied
twice as two different objects. -/
theorem memo_default_comparator_single_render :
    (∀ (i j : Nat) (e : Props), (e.map Prod.fst).Nodup →
        memoRenderCount shallowEqualProps
          [{ poid := i, entries := e }, { poid := j, entries := e }] = 1) ∧
    (memoRenderCount shallowEqualProps
        [{ poid := 1, entries := [("a", JSVal.num 1)] },
         { poid := 2, entries := [("a", JSVal.num 1)] }] = 1 ∧
      propsObjectIs { poid := 1, entries := [("a", JSVal.num 1)] }
        { poid := 2, entries := [("a", JSVal.num 1)] } = false) := by
  constructor
  · intro i j e hnd
    have hcmp : shallowEqualProps
        { poid := i, entries := e } { poid := j, entries := e } = true :=
      shallowEqualProps_same_entries _ _ rfl hnd
    simp [memoRenderCount, memoGo, hcmp]
  · exact ⟨by decide, by decide⟩

/-- Closed instantiation of `memo_default_comparator_single_render` at
two fresh object ids sharing one entry list. -/
theorem memo_default_comparator_single_render_witness :
    memoRenderCount shallowEqualProps
      [{ poid := 5, entries := [("a", JSVal.num 1)] },
       { poid := 6, entries := [("a", JSVal.num 1)] }] = 1 :=
  memo_default_comparator_single_render.1 5 6 [("a", JSVal.num 1)] (by simp)

/-- C7: `createElement(type, props, ...children)` returns a new
Element exactly when `type` is a string tag, a function, or an object
carrying the exotic-component marker, and signals
`InvalidElementType` on every other `type` argument. -/
theorem createElement_valid_types :
    ∀ (t : JSVal) (props : Props) (children : List JSVal),
      ((∃ e, createElement t props children = .ok e) ↔
        (∃ s, t = .str s) ∨ (∃ i, t = .fn i) ∨ (∃ i, t = .obj i true)) ∧
      (¬ ((∃ s, t = .str s) ∨ (∃ i, t = .fn i) ∨ (∃ i, t = .obj i true)) →
        createElement t props children = .error .invalidElementType) := by
  intro t props children
  cases t with
  | undef => simp [createElement, isValidElementType]
  | nullV => simp [createElement, isValidElementType]
  | boolV b => simp [createElement, isValidElementType]
  | num n => simp [createElement, isValidElementType]
  | str s => simp [createElement, isValidElementType]
  | fn i => simp [createElement, isValidElementType]
  | obj i marker => cases marker <;> simp [createElement, isValidElementType]

/-- Closed instantiation of `createElement_valid_types`: a string tag
succeeds, a number is rejected with `InvalidElementType`. -/
theorem createElement_valid_types_witness :
    (∃ e, createElement (.str "div") [] [] = .ok e) ∧
    createElement (.num 3) [] [] = .error .invalidElementType :=
  ⟨(createElement_valid_types (.str "div") [] []).1.mpr (.inl ⟨"div", rfl⟩),
   (createElement_valid_types (.num 3) [] []).2 (by simp)⟩

/-- C8: `cloneElement(element, overrideProps, ...children)` keeps the
element type, shallow-merges the props — an override value wins except
that an `undefined` override value is dropped and the original kept —
replaces the children only when new children are given, and keeps the
original key and ref unless they are explicitly overridden.  The
override list binds each prop name once, as a JavaScript object
does. -/
theorem cloneElement_merge :
    ∀ (e : Element) (over : Props) (nk nr : Option JSVal)
      (nc : Option (List JSVal)),
      (over.map Prod.fst).Nodup →
      (cloneElement e over nk nr nc).etype = e.etype ∧
      (∀ k, lookupProp (cloneElement e over nk nr nc).props k =
        match lookupProp over k with
        | some v => if v = JSVal.undef then lookupProp e.props k else some v
        | none => lookupProp e.props k) ∧
      (cloneElement e over nk nr nc).children =
        (match nc with
         | some cs => cs
         | none => e.children) ∧
      (cloneElement e over nk nr nc).key =
        (match nk with
         | some k => some k
         | none => e.key) ∧
      (cloneElement e over nk nr nc).ref =
        (match nr with
         | some r => some r
         | none => e.ref) := by
  intro e over nk nr nc hnd
  refine ⟨rfl, ?_, rfl, rfl, rfl⟩
  intro k
  exact lookupProp_mergeProps e.props over k hnd

/-- Closed instantiation of `cloneElement_merge`: overriding
`b` with `undefined` keeps the original value, overriding nothing
keeps key, ref and children. -/
theorem cloneElement_merge_witness :
    lookupProp (cloneElement
        { etype := .str "div",
          props := [("a", JSVal.num 1), ("b", JSVal.num 2)],
          key := some (.str "k"), ref := none, children := [.num 0] }
        [("b", JSVal.undef), ("c", JSVal.num 3)] none none none).props "b" =
      some (JSVal.num 2) := by
  have h := (cloneElement_merge
      { etype := .str "div",
        props := [("a", JSVal.num 1), ("b", JSVal.num 2)],
        key := some (.str "k"), ref := none, children := [.num 0] }
      [("b", JSVal.undef), ("c", JSVal.num 3)] none none none
      (by decide)).2.1 "b"
  simpa using h

/-- C3 counterexample: the declared contract of `useCallback` and
`useMemo` does not admit a call without a dependency list — the `deps`
parameter is required, so supplying only the first argument is
rejected. -/
theorem deps_required_counterexample :
    admitsArgCount useCallback_params 1 = false ∧
    admitsArgCount useMemo_params 1 = false := by
  decide

/-- C3 amended: the public contract of `useMemo` and `useCallback`
requires a dependency list — a call supplying only the callback or
factory is rejected while supplying both arguments is admitted — so no
missing-list recompute policy arises at the type contract; `useEffect`
by contrast declares `deps` optional. -/
theorem deps_required_contract :
    admitsArgCount useCallback_params 2 = true ∧
    admitsArgCount useCallback_params 1 = false ∧
    admitsArgCount useMemo_params 2 = true ∧
    admitsArgCount useMemo_params 1 = false ∧
    admitsArgCount useEffect_params 1 = true ∧
    admitsArgCount useEffect_params 2 = true := by
  decide

/-- C9 counterexample: the ref returned by the `useRef` overload
taking a non-null initial value is a `MutableRefObject`, whose
`current` field application code may assign directly — refuting the
claim that every `useRef` ref is writable only by the reconciler. -/
theorem useRef_mutable_current_counterexample :
    (useRef_returnShape .withInit).currentWritableByApp = true ∧
    (useRef_returnShape .noArg).currentWritableByApp = true := by
  decide

/-- C9 amended: refs created by `createRef` — and by the `useRef`
overload whose initial value is typed `T | null`, which returns
`RefObject` — expose a read-only `current` to application code, while
the `useRef` overloads returning `MutableRefObject` (non-null initial
value, or no argument) expose a `current` field application code may
write directly. -/
theorem ref_current_writability :
    createRef_returnShape.currentWritableByApp = false ∧
    (useRef_returnShape .withNullableInit).currentWritableByApp = false ∧
    (useRef_returnShape .withInit).currentWritableByApp = true ∧
    (useRef_returnShape .noArg).currentWritableByApp = true := by
  decide

/-- C10: every effect callback accepted by `useEffect`,
`useLayoutEffect` and `useInsertionEffect` returns `undefined` or a
cleanup function and nothing else — a Promise return, as produced by
an async function, is rejected — so the cleanup a scheduled effect
yields is either absent or a callable destructor. -/
theorem effect_callback_return_contract :
    ∀ (h : EffectHook) (r : EffectReturn),
      (effectHookAdmits h r = true ↔
        r = .undefR ∨ ∃ i, r = .destructorR i) ∧
      (∀ i, effectHookAdmits h (.promiseR i) = false) ∧
      (effectHookAdmits h r = true →
        scheduledCleanup r = none ∨
          ∃ i, scheduledCleanup r = some i ∧ r = .destructorR i) := by
  intro h r
  refine ⟨?_, ?_, ?_⟩
  · cases r <;> simp [effectHookAdmits, effectCallbackAdmits]
  · intro i
    rfl
  · intro hadm
    cases r with
    | undefR => exact .inl rfl
    | destructorR i => exact .inr ⟨i, rfl, rfl⟩
    | promiseR i => simp [effectHookAdmits, effectCallbackAdmits] at hadm
    | valueR v => simp [effectHookAdmits, effectCallbackAdmits] at hadm

/-- Closed instantiation of `effect_callback_return_contract`: a
Promise return is rejected by `useEffect` and an `undefined` return is
accepted by `useInsertionEffect`. -/
theorem effect_callback_return_contract_witness :
    effectHookAdmits .useEffectH (.promiseR 0) = false ∧
    effectHookAdmits .useInsertionEffectH .undefR = true :=
  ⟨(effect_callback_return_contract .useEffectH .undefR).2.1 0,
   (effect_callback_return_contract .useInsertionEffectH .undefR).1.mpr
     (.inl rfl)⟩

end Reblend
